import Mathlib

/-!
Verification of the link-metadata acquisition pipeline of the
obsidian-auto-card-link repository: the metadata cache
(src/core/link-metadata/cache.ts), the fetcher with retry
(src/core/link-metadata/fetcher.ts), the multi-strategy HTML metadata
parser (src/core/link-metadata/parser.ts) and the two metadata service
variants (src/core/link-metadata/service.ts and the unnamed
MetadataService variant).

The TypeScript is embedded shallowly: JS `Map` becomes an association
list in insertion order, `Date.now()` becomes an explicit `now : Nat`
argument, promises/exceptions become `Except`, and `string | undefined`
becomes `Option String`.  JS truthiness on optional strings (undefined
and "" are falsy) is modelled by `truthyS`.
-/

/-- JS truthiness of a `string | undefined` value: `undefined` and the
empty string are falsy, every other string is truthy. -/
def truthyS : Option String → Bool
  | none => false
  | some s => s ≠ ""

/-- `String.prototype.trim`: drop leading and trailing whitespace.
(Defined over the character list so that proofs can evaluate it.) -/
def jsTrim (s : String) : String :=
  String.mk (((s.data.dropWhile Char.isWhitespace).reverse.dropWhile Char.isWhitespace).reverse)

/-- `String.prototype.toLowerCase` (ASCII-relevant part, which is all
the cache keys exercised here use). -/
def jsToLowerCase (s : String) : String :=
  String.mk (s.data.map Char.toLower)

/-- `String.prototype.startsWith`. -/
def strStartsWith (s pre : String) : Bool :=
  pre.data.isPrefixOf s.data

/-- `String.prototype.includes`, i.e. substring containment. -/
def strIncludes (s pat : String) : Bool :=
  s.data.tails.any (fun t => pat.data.isPrefixOf t)

/-! ## Data model (src/types/metadata.ts)

`LinkMetadata` from src/types/metadata.ts.  During the parser pipeline
the record is a `Partial<LinkMetadata>`; we therefore keep `title` as an
`Option` and prove that a successful parse always fills it. -/

structure LinkMetadata where
  url : String
  title : Option String
  description : Option String
  host : Option String
  siteName : Option String
  favicon : Option String
  image : Option String
  localImage : Option String
  indent : Int
deriving DecidableEq, Repr

/-! ## Cache (src/core/link-metadata/cache.ts) -/

/-- `CacheItem<LinkMetadata>`: `data`, creation timestamp, expiry
timestamp. -/
structure CacheItem where
  data : LinkMetadata
  timestamp : Nat
  expiry : Nat
deriving DecidableEq, Repr

/-- `CacheOptions`: both fields optional in the source. -/
structure CacheOptions where
  ttl : Option Nat := none
  maxItems : Option Nat := none
deriving DecidableEq, Repr

/-- The JS `Map<string, CacheItem>` is modelled as an association list
in insertion order with unique keys maintained by the operations. -/
abbrev CacheStore := List (String × CacheItem)

/-- `Map.get`: first (and, for states reachable through `Map` methods,
only) binding of the key. -/
def mapLookup : CacheStore → String → Option CacheItem
  | [], _ => none
  | p :: r, k => if p.1 = k then some p.2 else mapLookup r k

/-- `Map.set`: overwrite the binding in place if the key is present,
otherwise append at the end (JS `Map` preserves insertion order). -/
def mapSet : CacheStore → String → CacheItem → CacheStore
  | [], k, v => [(k, v)]
  | p :: r, k, v => if p.1 = k then (k, v) :: r else p :: mapSet r k v

/-- `Map.delete`: remove the binding of the key. -/
def mapDelete : CacheStore → String → CacheStore
  | [], _ => []
  | p :: r, k => if p.1 = k then r else p :: mapDelete r k

/-- `MetadataCache` with its options already merged with
`DEFAULT_CACHE_OPTIONS` (ttl 3600000 ms, maxItems 100). -/
structure MetadataCache where
  entries : CacheStore
  ttl : Nat
  maxItems : Nat
deriving DecidableEq, Repr

namespace MetadataCache

/-- Constructor: `{...DEFAULT_CACHE_OPTIONS, ...options}` with an empty
store. -/
def create (o : CacheOptions) : MetadataCache :=
  { entries := [], ttl := o.ttl.getD 3600000, maxItems := o.maxItems.getD 100 }

/-- `getCacheKey`: trim whitespace and lower-case the whole URL. -/
def getCacheKey (url : String) : String :=
  jsToLowerCase (jsTrim url)

/-- The loop body of `evictOldest`: scan the entries in iteration
order, keeping the first entry whose timestamp is strictly below the
running minimum (the initial minimum `Infinity` is represented by the
`none` accumulator, which any entry beats). -/
def oldestScan : CacheStore → Option (String × Nat) → Option (String × Nat)
  | [], acc => acc
  | p :: r, acc =>
    oldestScan r
      (match acc with
       | none => some (p.1, p.2.timestamp)
       | some (k, t) => if p.2.timestamp < t then some (p.1, p.2.timestamp) else some (k, t))

/-- `evictOldest`: find the oldest key and delete it.  The source
guards the deletion with `if (oldestKey)`, so a falsy (empty-string)
oldest key is NOT deleted. -/
def evictOldest (es : CacheStore) : CacheStore :=
  match oldestScan es none with
  | some (k, _) => if k ≠ "" then mapDelete es k else es
  | none => es

/-- `get(url)`: absent → undefined; present and `now < expiry` → the
data; present but expired → delete the entry and return undefined.  The
possibly-updated store is returned alongside the result. -/
def get (c : MetadataCache) (now : Nat) (url : String) :
    Option LinkMetadata × MetadataCache :=
  let key := getCacheKey url
  match mapLookup c.entries key with
  | some item =>
    if now < item.expiry then (some item.data, c)
    else (none, { c with entries := mapDelete c.entries key })
  | none => (none, c)

/-- `set(url, metadata)`: store `{data, timestamp := now, expiry := now
+ ttl}` under the normalized key, then, if the size exceeds `maxItems`,
run `evictOldest`. -/
def set (c : MetadataCache) (now : Nat) (url : String) (m : LinkMetadata) :
    MetadataCache :=
  let key := getCacheKey url
  let item : CacheItem := { data := m, timestamp := now, expiry := now + c.ttl }
  let es := mapSet c.entries key item
  if es.length > c.maxItems then { c with entries := evictOldest es }
  else { c with entries := es }

/-- `delete(url)`. -/
def del (c : MetadataCache) (url : String) : MetadataCache :=
  { c with entries := mapDelete c.entries (getCacheKey url) }

/-- `clear()`. -/
def clear (c : MetadataCache) : MetadataCache :=
  { c with entries := [] }

/-- `getStats()`. -/
def getStats (c : MetadataCache) : Nat × List String :=
  (c.entries.length, c.entries.map Prod.fst)

/-- The store produced by the `this.cache.set(cacheKey, item)` line of
`set`, before the capacity check. -/
def setInsert (c : MetadataCache) (now : Nat) (url : String) (m : LinkMetadata) :
    CacheStore :=
  mapSet c.entries (getCacheKey url) { data := m, timestamp := now, expiry := now + c.ttl }

end MetadataCache

/-! ## Fetcher (src/core/link-metadata/fetcher.ts)

The Obsidian `requestUrl` primitive is abstracted as a transport: a
function from the attempt index to that attempt's outcome (a resolved
`RequestUrlResponse` or a rejection carrying an error message). -/

/-- The `{status, text}` part of `RequestUrlResponse`. -/
structure RequestUrlResponse where
  status : Int
  text : String
deriving DecidableEq, Repr

/-- Outcome of one `requestUrl` invocation. -/
inductive Attempt where
  | ok (r : RequestUrlResponse)
  | err (msg : String)
deriving DecidableEq, Repr

/-- The typed errors thrown by the fetcher (src/types/errors.ts):
`TimeoutError(url, timeout)` and `NetworkError(message, url)`. -/
inductive FetchError where
  | timeoutError (url : String) (timeoutMs : Nat)
  | networkError (msg : String) (url : String)
deriving DecidableEq, Repr

/-- `FetchOptions`: all fields optional; defaults timeout 10000,
maxRetries 2, retryDelay 1000 merged in `fetchContent`. -/
structure FetchOptions where
  timeout : Option Nat := none
  maxRetries : Option Nat := none
  retryDelay : Option Nat := none
deriving DecidableEq, Repr

/-- The observable behaviour of one `fetchContent` call: the returned
value or thrown error, the number of `requestUrl` invocations, and the
sequence of delays slept between consecutive attempts. -/
structure FetchOutcome where
  result : Except FetchError RequestUrlResponse
  calls : Nat
  sleeps : List Nat
deriving Repr

/-- The raw state of the retry loop. -/
structure FetchLoopState where
  resp : Option RequestUrlResponse
  lastErr : Option String
  calls : Nat
  sleeps : List Nat
deriving DecidableEq, Repr

/-- The retry loop of `fetchContent`: `idx` is the current attempt
index, the second argument the number of attempts still allowed
(`maxRetries + 1` at the start).  On a rejection with further attempts
remaining the loop sleeps `retryDelay` and retries; the final rejection
does not sleep. -/
def fetchLoop (t : Nat → Attempt) (retryDelay : Nat) :
    Nat → Nat → Option String → FetchLoopState
  | _, 0, last => { resp := none, lastErr := last, calls := 0, sleeps := [] }
  | idx, n + 1, last =>
    match t idx with
    | .ok r => { resp := some r, lastErr := last, calls := 1, sleeps := [] }
    | .err m =>
      match n with
      | 0 => { resp := none, lastErr := some m, calls := 1, sleeps := [] }
      | n' + 1 =>
        let rest := fetchLoop t retryDelay (idx + 1) (n' + 1) (some m)
        { resp := rest.resp, lastErr := rest.lastErr,
          calls := rest.calls + 1, sleeps := retryDelay :: rest.sleeps }

namespace MetadataFetcher

/-- `MetadataFetcher.fetchContent`: merge the options with the
defaults, run at most `maxRetries + 1` attempts, return the first
resolved response; after exhaustion classify the last error — a message
containing "timeout" becomes `TimeoutError(url, timeout)`, anything
else `NetworkError(lastError?.message || 'Unknown network error',
url)`: the `||` substitutes the fallback both when there is no last
error and when its message is the (falsy) empty string. -/
def fetchContent (t : Nat → Attempt) (url : String) (opts : FetchOptions) :
    FetchOutcome :=
  let timeoutMs := opts.timeout.getD 10000
  let maxRetries := opts.maxRetries.getD 2
  let retryDelay := opts.retryDelay.getD 1000
  let raw := fetchLoop t retryDelay 0 (maxRetries + 1) none
  match raw.resp with
  | some r => { result := .ok r, calls := raw.calls, sleeps := raw.sleeps }
  | none =>
    match raw.lastErr with
    | some msg =>
      if strIncludes msg "timeout" then
        { result := .error (.timeoutError url timeoutMs), calls := raw.calls, sleeps := raw.sleeps }
      else
        { result := .error (.networkError (if msg = "" then "Unknown network error" else msg) url),
          calls := raw.calls, sleeps := raw.sleeps }
    | none =>
      { result := .error (.networkError "Unknown network error" url),
        calls := raw.calls, sleeps := raw.sleeps }

end MetadataFetcher

/-! ## Parser (src/core/link-metadata/parser.ts)

The host's `DOMParser` and `querySelector` calls are abstracted: a
parsed HTML document is represented by the results of the exact queries
the three strategies perform, and `new URL(url)` by a record carrying
the `hostname` and `origin` of a successfully parsed absolute URL. -/

/-- The pieces of `new URL(url)` the parser uses. -/
structure UrlInfo where
  raw : String
  hostname : String
  origin : String
deriving DecidableEq, Repr

/-- A parsed HTML document, as seen through the queries of the three
strategies.  Each `meta` field is the `content` attribute of the first
matching element (`none` when the element or the attribute is absent,
merged by the source's `?.getAttribute("content") ?? undefined`).
`titleText` is the `textContent` of the first `title` element,
`h1Text` the `textContent` of the first `h1`, and `faviconHref` the
`href` attribute of the first `link[rel='icon'], link[rel='shortcut
icon']` element (`none` when there is no such link or it has no
`href`). -/
structure HtmlDoc where
  ogTitle : Option String := none
  ogDescription : Option String := none
  ogImage : Option String := none
  ogSiteName : Option String := none
  twitterTitle : Option String := none
  twitterDescription : Option String := none
  twitterImage : Option String := none
  titleText : Option String := none
  h1Text : Option String := none
  metaDescription : Option String := none
  faviconHref : Option String := none
deriving DecidableEq, Repr

/-- The object literal returned by `OpenGraphStrategy.parse`: the four
keys are always present (possibly with value `undefined`). -/
structure OpenGraphResult where
  title : Option String
  description : Option String
  image : Option String
  siteName : Option String
deriving DecidableEq, Repr

/-- The object literal returned by `TwitterCardStrategy.parse`. -/
structure TwitterCardResult where
  title : Option String
  description : Option String
  image : Option String
deriving DecidableEq, Repr

/-- The object literal returned by `StandardHTMLStrategy.parse`. -/
structure StandardHTMLResult where
  title : Option String
  description : Option String
  favicon : Option String
deriving DecidableEq, Repr

namespace OpenGraphStrategy

/-- `OpenGraphStrategy.parse`. -/
def parse (doc : HtmlDoc) : OpenGraphResult :=
  { title := doc.ogTitle, description := doc.ogDescription,
    image := doc.ogImage, siteName := doc.ogSiteName }

end OpenGraphStrategy

namespace TwitterCardStrategy

/-- `TwitterCardStrategy.parse`. -/
def parse (doc : HtmlDoc) : TwitterCardResult :=
  { title := doc.twitterTitle, description := doc.twitterDescription,
    image := doc.twitterImage }

end TwitterCardStrategy

namespace StandardHTMLStrategy

/-- `StandardHTMLStrategy.getFavicon`: use the href of the icon link
when it is truthy, resolving a root-relative href against the URL's
origin; otherwise fall back to `{origin}/favicon.ico`. -/
def getFavicon (doc : HtmlDoc) (u : UrlInfo) : Option String :=
  match doc.faviconHref with
  | some h =>
    if h ≠ "" then
      if strStartsWith h "/" then some (u.origin ++ h) else some h
    else some (u.origin ++ "/favicon.ico")
  | none => some (u.origin ++ "/favicon.ico")

/-- The title extraction of `StandardHTMLStrategy.parse`: the `title`
element's text if truthy, else the trimmed `h1` text via
`...?.textContent?.trim() || undefined`. -/
def titleOf (doc : HtmlDoc) : Option String :=
  if truthyS doc.titleText then doc.titleText
  else
    match doc.h1Text with
    | some h => if jsTrim h = "" then none else some (jsTrim h)
    | none => none

/-- `StandardHTMLStrategy.parse`. -/
def parse (doc : HtmlDoc) (u : UrlInfo) : StandardHTMLResult :=
  { title := titleOf doc, description := doc.metaDescription,
    favicon := getFavicon doc u }

end StandardHTMLStrategy

/-- The title/description normalization of `cleanMetadata`: remove CR
and LF, escape each backslash as two backslashes, escape each double
quote as backslash-quote, then trim. -/
def cleanField (s : String) : String :=
  let noBreaks := String.mk (s.data.filter (fun c => c ≠ '\n' ∧ c ≠ '\r'))
  let escBack := String.mk (noBreaks.data.flatMap (fun c => if c = '\\' then ['\\', '\\'] else [c]))
  let escQuote := String.mk (escBack.data.flatMap (fun c => if c = '\"' then ['\\', '\"'] else [c]))
  jsTrim escQuote

namespace MetadataParser

/-- `cleanMetadata`: normalize `title` and `description` when they are
truthy. -/
def cleanMetadata (m : LinkMetadata) : LinkMetadata :=
  let m₁ := if truthyS m.title then { m with title := m.title.map cleanField } else m
  if truthyS m₁.description then { m₁ with description := m₁.description.map cleanField } else m₁

/-- `MetadataParser.parse` on a successfully URL-parsed input and a
successfully DOM-parsed document, with the default strategy
registration order (Open Graph, Twitter Card, Standard HTML).

The `Object.assign(metadata, result)` merges are modelled field by
field: each strategy's result is an object literal whose keys are
always present — also when their value is `undefined` — and
`Object.assign` copies a present key regardless of its value, so every
listed field of a later strategy overwrites the earlier value. -/
def parse (u : UrlInfo) (doc : HtmlDoc) : LinkMetadata :=
  let m₀ : LinkMetadata :=
    { url := u.raw, title := none, description := none, host := some u.hostname,
      siteName := none, favicon := none, image := none, localImage := none, indent := 0 }
  let og := OpenGraphStrategy.parse doc
  let m₁ := { m₀ with title := og.title, description := og.description,
                      image := og.image, siteName := og.siteName }
  let tw := TwitterCardStrategy.parse doc
  let m₂ := { m₁ with title := tw.title, description := tw.description, image := tw.image }
  let st := StandardHTMLStrategy.parse doc u
  let m₃ := { m₂ with title := st.title, description := st.description, favicon := st.favicon }
  let m₄ := cleanMetadata m₃
  if truthyS m₄.title then m₄ else { m₄ with title := some u.raw }

end MetadataParser

/-! ## Services (src/core/link-metadata/service.ts and the unnamed
MetadataService variant)

The services are embedded over injected behaviours: the transport
behind the fetcher, the parser as a function from the fetched body text
to its result (the services treat `this.parser.parse` as a black box),
and the image-save callback as a function from image URL and file name
to a resolved path or a rejection.  `Date.now()` is the explicit `now`
and the cache is threaded as state. -/

/-- The data of a `ParseError` (message and source). -/
structure ParseFailure where
  message : String
  source : String
deriving DecidableEq, Repr

/-- A typed error escaping `getMetadata`. -/
inductive ServiceError where
  | fetch (e : FetchError)
  | parse (e : ParseFailure)
deriving DecidableEq, Repr

/-- The only plugin setting the services read. -/
structure ObsidianAutoCardLinkSettings where
  preferLocalImages : Option Bool := none
deriving DecidableEq, Repr

/-- `MetadataServiceOptions`; `enableCache` defaults to `true` through
`DEFAULT_SERVICE_OPTIONS`. -/
structure MetadataServiceOptions where
  fetchOptions : Option FetchOptions := none
  enableCache : Option Bool := none
deriving DecidableEq, Repr

/-- The outcome of the injected `saveImageToAttachment` callback. -/
abbrev ImageSaver := String → String → Except String String

namespace LinkMetadataService

/-- `LinkMetadataService.getMetadata`
(src/core/link-metadata/service.ts): cache lookup (when enabled), fetch,
parse, image persistence — where a resolved path unconditionally
replaces `image` and a rejection is swallowed — then cache write. -/
def getMetadata (transport : Nat → Attempt)
    (parseFn : String → Except ParseFailure LinkMetadata)
    (saveImageToAttachment : ImageSaver)
    (_settings : Option ObsidianAutoCardLinkSettings)
    (opts : MetadataServiceOptions)
    (cache : MetadataCache) (now : Nat) (url : String) :
    Except ServiceError (LinkMetadata × MetadataCache) :=
  let enableCache := opts.enableCache.getD true
  let cres := if enableCache then cache.get now url else (none, cache)
  match cres.1 with
  | some m => .ok (m, cres.2)
  | none =>
    match (MetadataFetcher.fetchContent transport url (opts.fetchOptions.getD {})).result with
    | .error e => .error (.fetch e)
    | .ok resp =>
      match parseFn resp.text with
      | .error pe => .error (.parse pe)
      | .ok metadata =>
        let metadata' :=
          match metadata.image with
          | some img =>
            if img ≠ "" then
              match saveImageToAttachment img (toString now ++ ".png") with
              | .ok savedPath => { metadata with image := some savedPath }
              | .error _ => metadata
            else metadata
          | none => metadata
        let c₂ := if enableCache then cres.2.set now url metadata' else cres.2
        .ok (metadata', c₂)

end LinkMetadataService

/-- The file-name hash of the MetadataService variant:
`url.replace(/[^a-zA-Z0-9]/g, '').slice(-8)`. -/
def urlHash8 (url : String) : String :=
  let filtered := url.data.filter (fun c => c.isAlpha || c.isDigit)
  String.mk (filtered.drop (filtered.length - 8))

namespace MetadataService

/-- `MetadataService.getMetadata` (the unnamed variant): identical to
`LinkMetadataService.getMetadata` outside the image step; there it uses
an optional callback, a hash-based file name, sets `localImage` to the
resolved path and overwrites `image` only when
`settings?.preferLocalImages` is truthy. -/
def getMetadata (transport : Nat → Attempt)
    (parseFn : String → Except ParseFailure LinkMetadata)
    (saver : Option ImageSaver)
    (settings : Option ObsidianAutoCardLinkSettings)
    (opts : MetadataServiceOptions)
    (cache : MetadataCache) (now : Nat) (url : String) :
    Except ServiceError (LinkMetadata × MetadataCache) :=
  let enableCache := opts.enableCache.getD true
  let cres := if enableCache then cache.get now url else (none, cache)
  match cres.1 with
  | some m => .ok (m, cres.2)
  | none =>
    match (MetadataFetcher.fetchContent transport url (opts.fetchOptions.getD {})).result with
    | .error e => .error (.fetch e)
    | .ok resp =>
      match parseFn resp.text with
      | .error pe => .error (.parse pe)
      | .ok metadata =>
        let metadata' :=
          match metadata.image with
          | some img =>
            if img ≠ "" then
              let fileName := "image_" ++ urlHash8 url ++ "_" ++ toString now ++ ".png"
              match saver with
              | none => metadata
              | some save =>
                match save img fileName with
                | .ok savedPath =>
                  if savedPath ≠ "" then
                    let m₁ := { metadata with localImage := some savedPath }
                    if (settings.bind (fun st => st.preferLocalImages)).getD false then
                      { m₁ with image := some savedPath }
                    else m₁
                  else metadata
                | .error _ => metadata
            else metadata
          | none => metadata
        let c₂ := if enableCache then cres.2.set now url metadata' else cres.2
        .ok (metadata', c₂)

end MetadataService

/-! ## Concrete objects used by witnesses and counterexamples -/

/-- A concrete metadata record with the given url and title. -/
def mkMeta (u t : String) : LinkMetadata :=
  { url := u, title := some t, description := none, host := none, siteName := none,
    favicon := none, image := none, localImage := none, indent := 0 }

/-- A `ttl = 1000, maxItems = 3` cache filled with three entries at
times 1, 2, 3. -/
def cacheThree : MetadataCache :=
  (((MetadataCache.create { ttl := some 1000, maxItems := some 3 }).set 1 "k1"
      (mkMeta "k1" "one")).set 2 "k2" (mkMeta "k2" "two")).set 3 "k3" (mkMeta "k3" "three")

/-- A `maxItems = 3` cache whose globally oldest entry is stored under
the empty-string key (the normalized key of a whitespace-only URL). -/
def cacheEmptyKey : MetadataCache :=
  { entries :=
      [("", { data := mkMeta "a" "A", timestamp := 0, expiry := 1000 }),
       ("b", { data := mkMeta "b" "B", timestamp := 1, expiry := 1001 }),
       ("c", { data := mkMeta "c" "C", timestamp := 2, expiry := 1002 })],
    ttl := 1000, maxItems := 3 }

/-- A `ttl = 100` cache with one entry stored at time 0. -/
def cacheTtl100 : MetadataCache :=
  (MetadataCache.create { ttl := some 100, maxItems := some 3 }).set 0
    "https://example.com" (mkMeta "https://example.com" "t")

/-- `https://example.com` as a parsed URL. -/
def exampleUrl : UrlInfo :=
  { raw := "https://example.com", hostname := "example.com", origin := "https://example.com" }

/-- The document of a page whose only relevant markup is
`<meta property='og:title' content='A'>`: no twitter:title meta, no
title element, no h1. -/
def docOgOnly : HtmlDoc := { ogTitle := some "A" }

/-- A document whose only relevant markup is
`<link rel='icon' href='/fav.png'>`. -/
def docFav : HtmlDoc := { faviconHref := some "/fav.png" }

/-- Parsed metadata carrying a remote image URL. -/
def mWithImage : LinkMetadata :=
  { url := "https://example.com", title := some "T", description := none,
    host := some "example.com", siteName := none, favicon := none,
    image := some "https://example.com/img.png", localImage := none, indent := 0 }

/-- Parsed metadata without an image. -/
def mNoImage : LinkMetadata :=
  { url := "https://example.com", title := some "T", description := none,
    host := some "example.com", siteName := none, favicon := none,
    image := none, localImage := none, indent := 0 }

/-- A successful 200 response. -/
def respOk : RequestUrlResponse := { status := 200, text := "<html></html>" }

/-! ## Lemmas about the association-list model of `Map` -/

lemma mapLookup_mapSet_self (es : CacheStore) (k : String) (v : CacheItem) :
    mapLookup (mapSet es k v) k = some v := by
  induction es with
  | nil => simp [mapSet, mapLookup]
  | cons p r ih =>
    by_cases h : p.1 = k
    · simp [mapSet, mapLookup, h]
    · simp [mapSet, mapLookup, h, ih]

lemma mapLookup_mapDelete_ne (es : CacheStore) (k k' : String) (h : k ≠ k') :
    mapLookup (mapDelete es k') k = mapLookup es k := by
  induction es with
  | nil => simp [mapDelete]
  | cons p r ih =>
    by_cases hp : p.1 = k'
    · simp [mapDelete, mapLookup, hp, Ne.symm h]
    · by_cases hk : p.1 = k
      · simp [mapDelete, mapLookup, hp, hk, h]
      · simp [mapDelete, mapLookup, hp, hk, ih]

lemma mem_mapSet_of_ne (es : CacheStore) (k : String) (v : CacheItem)
    (p : String × CacheItem) (hp : p ∈ es) (hne : p.1 ≠ k) :
    p ∈ mapSet es k v := by
  induction es with
  | nil => cases hp
  | cons q r ih =>
    by_cases hq : q.1 = k
    · rcases List.mem_cons.mp hp with h | h
      · exact absurd (h ▸ hq) hne
      · simp [mapSet, hq, h]
    · rcases List.mem_cons.mp hp with h | h
      · simp [mapSet, hq, h]
      · simp [mapSet, hq, ih h]

lemma mapDelete_length (es : CacheStore) (k : String)
    (h : k ∈ es.map Prod.fst) : (mapDelete es k).length + 1 = es.length := by
  induction es with
  | nil => simp at h
  | cons p r ih =>
    by_cases hp : p.1 = k
    · simp [mapDelete, hp]
    · have : k ∈ r.map Prod.fst := by
        rcases List.mem_map.mp h with ⟨q, hq, hqk⟩
        rcases List.mem_cons.mp hq with rfl | hq'
        · exact absurd hqk hp
        · exact List.mem_map.mpr ⟨q, hq', hqk⟩
      simp [mapDelete, hp, ih this]

lemma mapLookup_of_mem_nodup (es : CacheStore) (k : String) (it : CacheItem)
    (hnodup : (es.map Prod.fst).Nodup) (hmem : (k, it) ∈ es) :
    mapLookup es k = some it := by
  induction es with
  | nil => cases hmem
  | cons p r ih =>
    rcases List.mem_cons.mp hmem with h | h
    · simp [mapLookup, ← h]
    · have hk : p.1 ≠ k := by
        intro hp
        have : p.1 ∈ r.map Prod.fst := List.mem_map.mpr ⟨(k, it), h, hp.symm⟩
        exact (List.nodup_cons.mp (by simpa using hnodup)).1 this
      simp [mapLookup, hk, ih (List.nodup_cons.mp (by simpa using hnodup)).2 h]

/-- The `evictOldest` scan, started from an explicit best-so-far,
returns a pair that is at most the start and bounds every scanned
timestamp from below; the returned pair is the start or the key and
timestamp of a scanned entry. -/
lemma oldestScan_spec (es : CacheStore) :
    ∀ (k : String) (t : Nat),
      ∃ k' t', MetadataCache.oldestScan es (some (k, t)) = some (k', t') ∧ t' ≤ t ∧
        ((k' = k ∧ t' = t) ∨ ∃ it, (k', it) ∈ es ∧ it.timestamp = t') ∧
        ∀ p ∈ es, t' ≤ p.2.timestamp := by
  induction es with
  | nil =>
    intro k t
    exact ⟨k, t, rfl, le_refl t, Or.inl ⟨rfl, rfl⟩, by simp⟩
  | cons p r ih =>
    intro k t
    by_cases hlt : p.2.timestamp < t
    · obtain ⟨k', t', heq, hle, hdisj, hall⟩ := ih p.1 p.2.timestamp
      refine ⟨k', t', ?_, le_of_lt (lt_of_le_of_lt hle hlt), ?_, ?_⟩
      · simpa [MetadataCache.oldestScan, hlt] using heq
      · rcases hdisj with ⟨hk, ht⟩ | ⟨it, hmem, hts⟩
        · exact Or.inr ⟨p.2, by simp [hk, Prod.ext_iff], ht.symm⟩
        · exact Or.inr ⟨it, List.mem_cons_of_mem p hmem, hts⟩
      · intro q hq
        rcases List.mem_cons.mp hq with rfl | hq'
        · exact hle
        · exact hall q hq'
    · obtain ⟨k', t', heq, hle, hdisj, hall⟩ := ih k t
      refine ⟨k', t', ?_, hle, ?_, ?_⟩
      · simpa [MetadataCache.oldestScan, hlt] using heq
      · rcases hdisj with h | ⟨it, hmem, hts⟩
        · exact Or.inl h
        · exact Or.inr ⟨it, List.mem_cons_of_mem p hmem, hts⟩
      · intro q hq
        rcases List.mem_cons.mp hq with rfl | hq'
        · exact le_trans hle (Nat.le_of_not_lt hlt)
        · exact hall q hq'

lemma mapSet_keys (es : CacheStore) (k : String) (v : CacheItem) :
    (mapSet es k v).map Prod.fst =
      if k ∈ es.map Prod.fst then es.map Prod.fst else es.map Prod.fst ++ [k] := by
  induction es with
  | nil => simp [mapSet]
  | cons p r ih =>
    by_cases hp : p.1 = k
    · simp [mapSet, hp]
    · by_cases hk : k ∈ r.map Prod.fst
      · simp [mapSet, hp, ih, hk, Ne.symm hp]
      · simp [mapSet, hp, ih, hk, Ne.symm hp]

lemma mapSet_keys_nodup (es : CacheStore) (k : String) (v : CacheItem)
    (h : (es.map Prod.fst).Nodup) : ((mapSet es k v).map Prod.fst).Nodup := by
  rw [mapSet_keys]
  by_cases hk : k ∈ es.map Prod.fst
  · simpa [hk] using h
  · simp only [hk, if_false]
    exact List.Nodup.append h (List.nodup_singleton k)
      (by simpa [List.disjoint_singleton] using hk)

/-- The store of `set` phrased through `setInsert`. -/
lemma set_entries_eq (c : MetadataCache) (now : Nat) (url : String) (m : LinkMetadata) :
    (c.set now url m).entries =
      if (c.setInsert now url m).length > c.maxItems
      then MetadataCache.evictOldest (c.setInsert now url m)
      else c.setInsert now url m := by
  simp only [MetadataCache.set, MetadataCache.setInsert]
  split <;> rfl

/-- On a non-empty store the scan of `evictOldest` finds an entry of
the store whose timestamp is minimal. -/
lemma oldestScan_none_spec (es : CacheStore) (hne : es ≠ []) :
    ∃ kmin it, MetadataCache.oldestScan es none = some (kmin, it.timestamp) ∧
      (kmin, it) ∈ es ∧ ∀ p ∈ es, it.timestamp ≤ p.2.timestamp := by
  match es, hne with
  | p :: r, _ =>
    obtain ⟨k', t', heq, hle, hdisj, hall⟩ := oldestScan_spec r p.1 p.2.timestamp
    have hstep : MetadataCache.oldestScan (p :: r) none =
        MetadataCache.oldestScan r (some (p.1, p.2.timestamp)) := rfl
    rcases hdisj with ⟨hk, ht⟩ | ⟨it, hmem, hts⟩
    · refine ⟨p.1, p.2, ?_, List.mem_cons_self p r, ?_⟩
      · rw [hstep, heq, hk, ht]
      · intro q hq
        rcases List.mem_cons.mp hq with rfl | hq'
        · exact le_refl _
        · have := hall q hq'
          omega
    · refine ⟨k', it, ?_, List.mem_cons_of_mem p hmem, ?_⟩
      · rw [hstep, heq, hts]
      · intro q hq
        rcases List.mem_cons.mp hq with rfl | hq'
        · omega
        · have := hall q hq'
          omega

/-- `Map.set` with a key not yet in the store appends the binding. -/
lemma mapSet_fresh_append (es : CacheStore) (k : String) (v : CacheItem)
    (h : k ∉ es.map Prod.fst) : mapSet es k v = es ++ [(k, v)] := by
  induction es with
  | nil => rfl
  | cons p r ih =>
    have hp : ¬ p.1 = k := by
      intro hk
      exact h (List.mem_map.mpr ⟨p, List.mem_cons_self p r, hk⟩)
    have hr : k ∉ r.map Prod.fst := by
      intro hk
      rcases List.mem_map.mp hk with ⟨q, hq, hqk⟩
      exact h (List.mem_map.mpr ⟨q, List.mem_cons_of_mem p hq, hqk⟩)
    simp [mapSet, hp, ih hr]

/-- The `evictOldest` scan over a store with one more entry at the end:
the final entry displaces the best-so-far only when its timestamp is
strictly smaller (ties keep the earlier entry). -/
lemma oldestScan_append_one (l : CacheStore) (e : String × CacheItem) :
    ∀ acc, MetadataCache.oldestScan (l ++ [e]) acc =
      (match MetadataCache.oldestScan l acc with
       | none => some (e.1, e.2.timestamp)
       | some (k, t) =>
         if e.2.timestamp < t then some (e.1, e.2.timestamp) else some (k, t)) := by
  induction l with
  | nil =>
    intro acc
    rcases acc with _ | ⟨k, t⟩
    · rfl
    · rfl
  | cons q r ih =>
    intro acc
    simp only [List.cons_append, MetadataCache.oldestScan]
    exact ih _

/-! ## Claims about the cache -/

/-- C7: `MetadataCache.get` returns `undefined` when no entry is stored
under the normalized key, and when an entry exists whose expiry
satisfies `now >= expiresAt` it deletes that entry from the store and
returns `undefined` (lazy expiry; the witness runs the claim's
`ttl = 100 ms, get after 150 ms` scenario). -/
theorem C7_get_lazy_expiry (c : MetadataCache) (now : Nat) (url : String) :
    (mapLookup c.entries (MetadataCache.getCacheKey url) = none →
      c.get now url = (none, c)) ∧
    (∀ item, mapLookup c.entries (MetadataCache.getCacheKey url) = some item →
      item.expiry ≤ now →
      c.get now url =
        (none, { c with entries := mapDelete c.entries (MetadataCache.getCacheKey url) })) := by
  constructor
  · intro h
    simp [MetadataCache.get, h]
  · intro item h hexp
    simp [MetadataCache.get, h, Nat.not_lt.mpr hexp]

/-- Witness for C7: with `ttl = 100`, an entry set at time 0 and read
at time 150 is reported absent and removed from the store. -/
theorem C7_get_lazy_expiry_witness :
    mapLookup cacheTtl100.entries (MetadataCache.getCacheKey "https://example.com") =
      some { data := mkMeta "https://example.com" "t", timestamp := 0, expiry := 100 } ∧
    (100 : Nat) ≤ 150 ∧
    cacheTtl100.get 150 "https://example.com" =
      (none, { cacheTtl100 with
        entries := mapDelete cacheTtl100.entries
          (MetadataCache.getCacheKey "https://example.com") }) :=
  ⟨by decide, by decide,
    (C7_get_lazy_expiry cacheTtl100 150 "https://example.com").2
      { data := mkMeta "https://example.com" "t", timestamp := 0, expiry := 100 }
      (by decide) (by decide)⟩

/-- C5 counterexample: a cache state that satisfies the claim's
hypothesis (pairwise-distinct `createdAt` timestamps) on which `set`
does NOT evict any entry although the count exceeds `maxItems`: the
globally oldest entry is stored under the empty-string key, and
`evictOldest` guards the deletion with the truthiness check
`if (oldestKey)`, which the empty string fails.  After the fourth
insert the store still has 4 entries and the oldest entry is still
retrievable. -/
theorem C5_cex_empty_key_skips_eviction :
    (cacheEmptyKey.setInsert 3 "d" (mkMeta "d" "D")).Pairwise
      (fun a b => a.2.timestamp ≠ b.2.timestamp) ∧
    (cacheEmptyKey.set 3 "d" (mkMeta "d" "D")).entries.length = 4 ∧
    ((cacheEmptyKey.set 3 "d" (mkMeta "d" "D")).get 4 "").1 = some (mkMeta "a" "A") := by
  decide

/-- C5 (amended): for every cache state whose entries have
pairwise-distinct `createdAt` timestamps and all of whose keys are
non-empty, `set` stores the new entry with `expiresAt = now + ttl` and,
if the entry count then exceeds `maxItems`, evicts exactly one entry —
the strictly oldest by `createdAt` across the whole store. -/
theorem C5_set_evicts_global_oldest
    (c : MetadataCache) (now : Nat) (url : String) (m : LinkMetadata)
    (hdist : (c.setInsert now url m).Pairwise (fun a b => a.2.timestamp ≠ b.2.timestamp))
    (hkeys : ∀ p ∈ c.setInsert now url m, p.1 ≠ "") :
    mapLookup (c.setInsert now url m) (MetadataCache.getCacheKey url) =
      some { data := m, timestamp := now, expiry := now + c.ttl } ∧
    ((c.setInsert now url m).length ≤ c.maxItems →
      (c.set now url m).entries = c.setInsert now url m) ∧
    ((c.setInsert now url m).length > c.maxItems →
      ∃ kmin itmin, (kmin, itmin) ∈ c.setInsert now url m ∧
        (∀ p ∈ c.setInsert now url m, p ≠ (kmin, itmin) →
          itmin.timestamp < p.2.timestamp) ∧
        (c.set now url m).entries = mapDelete (c.setInsert now url m) kmin ∧
        (c.set now url m).entries.length + 1 = (c.setInsert now url m).length) := by
  refine ⟨mapLookup_mapSet_self _ _ _, ?_, ?_⟩
  · intro hle
    rw [set_entries_eq, if_neg (by omega)]
  · intro hgt
    have hne : c.setInsert now url m ≠ [] := by
      intro h
      rw [h] at hgt
      simp at hgt
    obtain ⟨kmin, it, heq, hmem, hmin⟩ := oldestScan_none_spec _ hne
    have hkmin : kmin ≠ "" := hkeys (kmin, it) hmem
    have hentries : (c.set now url m).entries = mapDelete (c.setInsert now url m) kmin := by
      rw [set_entries_eq, if_pos hgt]
      simp only [MetadataCache.evictOldest]
      rw [heq]
      simp [hkmin]
    refine ⟨kmin, it, hmem, ?_, hentries, ?_⟩
    · intro p hp hpne
      have h₁ := hmin p hp
      have h₂ : it.timestamp ≠ p.2.timestamp := by
        have := (List.Pairwise.forall (R := fun a b => a.2.timestamp ≠ b.2.timestamp)
          (fun _ _ h => Ne.symm h) hdist) hmem hp (fun h => hpne h.symm)
        exact this
      omega
    · rw [hentries]
      exact mapDelete_length _ _ (List.mem_map.mpr ⟨(kmin, it), hmem, rfl⟩)

/-- Witness for C5: with `maxItems = 3`, inserting a fourth distinct
key at a later time evicts exactly the first-inserted key; the other
three keys remain retrievable. -/
theorem C5_set_evicts_global_oldest_witness :
    ((cacheThree.setInsert 4 "k4" (mkMeta "k4" "four")).Pairwise
      (fun a b => a.2.timestamp ≠ b.2.timestamp) ∧
    (∀ p ∈ cacheThree.setInsert 4 "k4" (mkMeta "k4" "four"), p.1 ≠ "") ∧
    ((cacheThree.setInsert 4 "k4" (mkMeta "k4" "four")).length > cacheThree.maxItems →
      ∃ kmin itmin, (kmin, itmin) ∈ cacheThree.setInsert 4 "k4" (mkMeta "k4" "four") ∧
        (∀ p ∈ cacheThree.setInsert 4 "k4" (mkMeta "k4" "four"), p ≠ (kmin, itmin) →
          itmin.timestamp < p.2.timestamp) ∧
        (cacheThree.set 4 "k4" (mkMeta "k4" "four")).entries =
          mapDelete (cacheThree.setInsert 4 "k4" (mkMeta "k4" "four")) kmin ∧
        (cacheThree.set 4 "k4" (mkMeta "k4" "four")).entries.length + 1 =
          (cacheThree.setInsert 4 "k4" (mkMeta "k4" "four")).length)) ∧
    ((cacheThree.set 4 "k4" (mkMeta "k4" "four")).get 5 "k1").1 = none ∧
    ((cacheThree.set 4 "k4" (mkMeta "k4" "four")).get 5 "k2").1 = some (mkMeta "k2" "two") ∧
    ((cacheThree.set 4 "k4" (mkMeta "k4" "four")).get 5 "k3").1 = some (mkMeta "k3" "three") ∧
    ((cacheThree.set 4 "k4" (mkMeta "k4" "four")).get 5 "k4").1 = some (mkMeta "k4" "four") :=
  ⟨⟨by decide, by decide,
    (C5_set_evicts_global_oldest cacheThree 4 "k4" (mkMeta "k4" "four")
      (by decide) (by decide)).2.2⟩,
    by decide, by decide, by decide, by decide⟩

/-- C6: after `set u m`, a `get u'` before the TTL has elapsed returns
`m` whenever `u` and `u'` normalize (trim + full lower-casing) to the
same cache key — for every store within capacity, and for every
over-capacity store in which some other entry is strictly older than
the write, or the written key is fresh and some existing entry is no
younger than the write (which covers inserts where every existing
entry shares the write's `Date.now()` millisecond: the scan's strict
`<` keeps the first-in-iteration-order minimum, never the entry just
appended). -/
theorem C6_cache_roundtrip (c : MetadataCache) (m : LinkMetadata) (u u' : String)
    (hkey : MetadataCache.getCacheKey u = MetadataCache.getCacheKey u')
    (hnodup : (c.entries.map Prod.fst).Nodup)
    (now now' : Nat) (hfresh : now' < now + c.ttl)
    (hcap : (c.setInsert now u m).length ≤ c.maxItems ∨
      (∃ p ∈ c.entries, p.1 ≠ MetadataCache.getCacheKey u ∧ p.2.timestamp < now) ∨
      (MetadataCache.getCacheKey u ∉ c.entries.map Prod.fst ∧
        ∃ p ∈ c.entries, p.2.timestamp ≤ now)) :
    ((c.set now u m).get now' u').1 = some m := by
  by_cases hlen : (c.setInsert now u m).length ≤ c.maxItems
  · have hset : (c.set now u m).entries = c.setInsert now u m := by
      rw [set_entries_eq, if_neg (by omega)]
    have hlook : mapLookup (c.set now u m).entries (MetadataCache.getCacheKey u') =
        some { data := m, timestamp := now, expiry := now + c.ttl } := by
      rw [hset, ← hkey]
      exact mapLookup_mapSet_self _ _ _
    simp [MetadataCache.get, hlook, hfresh]
  · have hne : c.setInsert now u m ≠ [] := by
      intro h
      have hx := mapLookup_mapSet_self c.entries (MetadataCache.getCacheKey u)
        { data := m, timestamp := now, expiry := now + c.ttl }
      rw [show mapSet c.entries (MetadataCache.getCacheKey u)
          { data := m, timestamp := now, expiry := now + c.ttl } =
          c.setInsert now u m from rfl, h] at hx
      simp [mapLookup] at hx
    have hscan : ∃ kmin tmin,
        MetadataCache.oldestScan (c.setInsert now u m) none = some (kmin, tmin) ∧
        kmin ≠ MetadataCache.getCacheKey u := by
      rcases hcap with hcap | ⟨p, hp, hpne, hpts⟩ | ⟨hfreshk, p, hp, hpts⟩
      · exact absurd hcap hlen
      · obtain ⟨kmin, it, heq, hmem, hmin⟩ := oldestScan_none_spec _ hne
        have hpin : p ∈ c.setInsert now u m :=
          mem_mapSet_of_ne _ _ _ p hp hpne
        have hnodup' : ((c.setInsert now u m).map Prod.fst).Nodup :=
          mapSet_keys_nodup _ _ _ hnodup
        refine ⟨kmin, it.timestamp, heq, ?_⟩
        intro hkm
        have hlook₁ := mapLookup_of_mem_nodup _ _ _ hnodup' (hkm ▸ hmem)
        have hlook₂ := mapLookup_mapSet_self c.entries (MetadataCache.getCacheKey u)
          { data := m, timestamp := now, expiry := now + c.ttl }
        rw [show mapSet c.entries (MetadataCache.getCacheKey u)
            { data := m, timestamp := now, expiry := now + c.ttl } =
            c.setInsert now u m from rfl] at hlook₂
        rw [hlook₂] at hlook₁
        have hts : it.timestamp = now := by
          rw [← Option.some.inj hlook₁]
        have := hmin p hpin
        omega
      · have happ : c.setInsert now u m =
            c.entries ++ [(MetadataCache.getCacheKey u,
              { data := m, timestamp := now, expiry := now + c.ttl })] :=
          mapSet_fresh_append _ _ _ hfreshk
        have hlne : c.entries ≠ [] := by
          intro h0
          rw [h0] at hp
          cases hp
        obtain ⟨k₀, it₀, hscan₀, hmem₀, hmin₀⟩ := oldestScan_none_spec c.entries hlne
        have hts₀ : it₀.timestamp ≤ now := le_trans (hmin₀ p hp) hpts
        refine ⟨k₀, it₀.timestamp, ?_, ?_⟩
        · rw [happ, oldestScan_append_one, hscan₀]
          dsimp only
          rw [if_neg (by omega)]
        · intro hk
          apply hfreshk
          rw [← hk]
          exact List.mem_map.mpr ⟨(k₀, it₀), hmem₀, rfl⟩
    obtain ⟨kmin, tmin, heq, hkmin_ne⟩ := hscan
    have hentries : (c.set now u m).entries =
        MetadataCache.evictOldest (c.setInsert now u m) := by
      rw [set_entries_eq, if_pos (by omega)]
    have hlook : mapLookup (c.set now u m).entries (MetadataCache.getCacheKey u') =
        some { data := m, timestamp := now, expiry := now + c.ttl } := by
      rw [hentries, ← hkey]
      simp only [MetadataCache.evictOldest]
      rw [heq]
      by_cases hk0 : kmin = ""
      · simp only [hk0, ne_eq, not_true_eq_false, if_false]
        exact mapLookup_mapSet_self _ _ _
      · simp only [ne_eq, hk0, not_false_eq_true, if_true]
        rw [mapLookup_mapDelete_ne _ _ _ (Ne.symm hkmin_ne)]
        exact mapLookup_mapSet_self _ _ _
    simp [MetadataCache.get, hlook, hfresh]

/-- Witness for C6: on a fresh default cache,
`set " HTTPS://Example.com " m` followed by
`get "https://example.com"` at the same instant returns `m`. -/
theorem C6_cache_roundtrip_witness :
    MetadataCache.getCacheKey " HTTPS://Example.com " =
      MetadataCache.getCacheKey "https://example.com" ∧
    (((MetadataCache.create {}).entries.map Prod.fst).Nodup) ∧
    (0 : Nat) < 0 + (MetadataCache.create {}).ttl ∧
    (((MetadataCache.create {}).set 0 " HTTPS://Example.com "
        (mkMeta "https://example.com" "Example")).get 0 "https://example.com").1 =
      some (mkMeta "https://example.com" "Example") :=
  ⟨by decide, by decide, by decide,
    C6_cache_roundtrip (MetadataCache.create {}) (mkMeta "https://example.com" "Example")
      " HTTPS://Example.com " "https://example.com" (by decide) (by decide) 0 0 (by decide)
      (Or.inl (by decide))⟩

/-! ## Claims about the fetcher -/

/-- One unfolding of the retry loop at a rejecting attempt that is not
the last one: a sleep is recorded and the loop recurses. -/
lemma fetchLoop_err_succ (t : Nat → Attempt) (d idx n : Nat) (last : Option String)
    (m : String) (hm : t idx = .err m) :
    fetchLoop t d idx (n + 1 + 1) last =
      { resp := (fetchLoop t d (idx + 1) (n + 1) (some m)).resp,
        lastErr := (fetchLoop t d (idx + 1) (n + 1) (some m)).lastErr,
        calls := (fetchLoop t d (idx + 1) (n + 1) (some m)).calls + 1,
        sleeps := d :: (fetchLoop t d (idx + 1) (n + 1) (some m)).sleeps } := by
  conv_lhs => rw [fetchLoop]
  rw [hm]

/-- One unfolding of the retry loop at a resolving attempt: the loop
stops with that response after a single invocation. -/
lemma fetchLoop_ok_here (t : Nat → Attempt) (d idx n : Nat) (last : Option String)
    (r : RequestUrlResponse) (hk : t idx = .ok r) :
    fetchLoop t d idx (n + 1) last =
      { resp := some r, lastErr := last, calls := 1, sleeps := [] } := by
  conv_lhs => rw [fetchLoop]
  rw [hk]

/-- One unfolding of the retry loop at a rejecting final attempt. -/
lemma fetchLoop_err_last (t : Nat → Attempt) (d idx : Nat) (last : Option String)
    (m : String) (hm : t idx = .err m) :
    fetchLoop t d idx 1 last =
      { resp := none, lastErr := some m, calls := 1, sleeps := [] } := by
  conv_lhs => rw [fetchLoop]
  rw [hm]

/-- When every attempt rejects, the retry loop performs all remaining
attempts, records the message of the last attempt, and sleeps once
between each pair of consecutive attempts. -/
lemma fetchLoop_all_err (t : Nat → Attempt) (msgs : Nat → String) (d : Nat)
    (h : ∀ i, t i = .err (msgs i)) :
    ∀ (n idx : Nat) (last : Option String),
      fetchLoop t d idx (n + 1) last =
        { resp := none, lastErr := some (msgs (idx + n)), calls := n + 1,
          sleeps := List.replicate n d } := by
  intro n
  induction n with
  | zero =>
    intro idx last
    rw [fetchLoop_err_last t d idx last (msgs idx) (h idx)]
    simp
  | succ n ih =>
    intro idx last
    rw [fetchLoop_err_succ t d idx n last (msgs idx) (h idx), ih (idx + 1),
      show idx + 1 + n = idx + (n + 1) from by omega]
    simp [List.replicate_succ]

/-- When the first `k` attempts reject and attempt `k` resolves, the
retry loop stops at attempt `k` with its response. -/
lemma fetchLoop_first_ok (t : Nat → Attempt) (d : Nat) (r : RequestUrlResponse) :
    ∀ (k idx n : Nat) (last : Option String), k < n →
      t (idx + k) = .ok r → (∀ i, i < k → ∃ m, t (idx + i) = .err m) →
      (fetchLoop t d idx n last).resp = some r ∧
      (fetchLoop t d idx n last).calls = k + 1 ∧
      (fetchLoop t d idx n last).sleeps = List.replicate k d := by
  intro k
  induction k with
  | zero =>
    intro idx n last hn hok _
    obtain ⟨n₀, rfl⟩ : ∃ n₀, n = n₀ + 1 := ⟨n - 1, by omega⟩
    rw [Nat.add_zero] at hok
    rw [fetchLoop_ok_here t d idx n₀ last r hok]
    exact ⟨rfl, rfl, rfl⟩
  | succ k ih =>
    intro idx n last hn hok hpre
    obtain ⟨m₀, hm₀⟩ := hpre 0 (Nat.succ_pos k)
    rw [Nat.add_zero] at hm₀
    obtain ⟨n₁, rfl⟩ : ∃ n₁, n = n₁ + 1 + 1 := ⟨n - 2, by omega⟩
    have hok' : t (idx + 1 + k) = .ok r := by
      rw [show idx + 1 + k = idx + (k + 1) from by omega]
      exact hok
    have hpre' : ∀ i, i < k → ∃ m, t (idx + 1 + i) = .err m := by
      intro i hi
      obtain ⟨m, hm⟩ := hpre (i + 1) (by omega)
      exact ⟨m, by rw [show idx + 1 + i = idx + (i + 1) from by omega]; exact hm⟩
    obtain ⟨h₁, h₂, h₃⟩ := ih (idx + 1) (n₁ + 1) (some m₀) (by omega) hok' hpre'
    rw [fetchLoop_err_succ t d idx n₁ last m₀ hm₀]
    exact ⟨h₁, by rw [h₂], by rw [h₃, List.replicate_succ]⟩

/-- C3 counterexample: a transport whose rejections carry the empty
message.  The claim says the `NetworkError` thrown after exhaustion
carries the last error's message (here `""`); the program's
`lastError?.message || 'Unknown network error'` substitutes the
fallback for the falsy empty string, so the thrown error carries
`'Unknown network error'` instead. -/
theorem C3_cex_empty_message_gets_fallback :
    (MetadataFetcher.fetchContent (fun _ => .err "") "https://example.com" {}).result =
      .error (FetchError.networkError "Unknown network error" "https://example.com") ∧
    FetchError.networkError "Unknown network error" "https://example.com" ≠
      FetchError.networkError "" "https://example.com" :=
  ⟨rfl, by decide⟩

/-- C3 (amended): when every attempt of the transport rejects,
`MetadataFetcher.fetchContent` invokes the transport exactly
`maxRetries + 1` times, sleeps `retryDelay` between consecutive
attempts, and throws `TimeoutError(url, timeout)` when the last error's
message contains "timeout", and otherwise `NetworkError` carrying the
last error's message — with `'Unknown network error'` substituted when
that message is empty — and the original url. -/
theorem C3_fetch_exhaustion (t : Nat → Attempt) (msgs : Nat → String)
    (url : String) (opts : FetchOptions)
    (h : ∀ i, t i = .err (msgs i)) :
    (MetadataFetcher.fetchContent t url opts).calls = opts.maxRetries.getD 2 + 1 ∧
    (MetadataFetcher.fetchContent t url opts).sleeps =
      List.replicate (opts.maxRetries.getD 2) (opts.retryDelay.getD 1000) ∧
    (MetadataFetcher.fetchContent t url opts).result =
      .error (if strIncludes (msgs (opts.maxRetries.getD 2)) "timeout"
        then FetchError.timeoutError url (opts.timeout.getD 10000)
        else FetchError.networkError
          (if msgs (opts.maxRetries.getD 2) = "" then "Unknown network error"
           else msgs (opts.maxRetries.getD 2)) url) := by
  have hloop := fetchLoop_all_err t msgs (opts.retryDelay.getD 1000) h
    (opts.maxRetries.getD 2) 0 none
  rw [Nat.zero_add] at hloop
  by_cases htime : strIncludes (msgs (opts.maxRetries.getD 2)) "timeout"
  · simp [MetadataFetcher.fetchContent, hloop, htime]
  · simp [MetadataFetcher.fetchContent, hloop, htime]

/-- Witness for C3: a transport that always rejects with "connection
reset" under the default options causes 3 invocations, 2 sleeps of
1000 ms, and a `NetworkError` carrying the message and the url. -/
theorem C3_fetch_exhaustion_witness :
    (MetadataFetcher.fetchContent (fun _ => .err "connection reset")
      "https://example.com" {}).calls = 2 + 1 ∧
    (MetadataFetcher.fetchContent (fun _ => .err "connection reset")
      "https://example.com" {}).sleeps = List.replicate 2 1000 ∧
    (MetadataFetcher.fetchContent (fun _ => .err "connection reset")
      "https://example.com" {}).result =
      .error (FetchError.networkError "connection reset" "https://example.com") :=
  C3_fetch_exhaustion (fun _ => .err "connection reset") (fun _ => "connection reset")
    "https://example.com" {} (fun _ => rfl)

/-- C8: the response of the first non-rejecting attempt is returned as
success without inspecting the HTTP status code (the response `r` is
arbitrary, including non-2xx statuses), and no further attempts are
made after it. -/
theorem C8_first_success_passthrough (t : Nat → Attempt) (r : RequestUrlResponse)
    (k : Nat) (url : String) (opts : FetchOptions)
    (hk : k ≤ opts.maxRetries.getD 2)
    (hok : t k = .ok r)
    (hpre : ∀ i, i < k → ∃ m, t i = .err m) :
    (MetadataFetcher.fetchContent t url opts).result = .ok r ∧
    (MetadataFetcher.fetchContent t url opts).calls = k + 1 := by
  obtain ⟨h₁, h₂, _⟩ := fetchLoop_first_ok t (opts.retryDelay.getD 1000) r k 0
    (opts.maxRetries.getD 2 + 1) none (by omega)
    (by rw [Nat.zero_add]; exact hok)
    (by intro i hi; rw [Nat.zero_add]; exact hpre i hi)
  constructor
  · simp [MetadataFetcher.fetchContent, h₁]
  · simp [MetadataFetcher.fetchContent, h₁, h₂]

/-- Witness for C8: a transport whose first attempt resolves with an
HTTP 404 response yields that response as success after exactly one
invocation. -/
theorem C8_first_success_passthrough_witness :
    (MetadataFetcher.fetchContent
      (fun _ => .ok { status := 404, text := "Not Found" })
      "https://example.com" {}).result = .ok { status := 404, text := "Not Found" } ∧
    (MetadataFetcher.fetchContent
      (fun _ => .ok { status := 404, text := "Not Found" })
      "https://example.com" {}).calls = 0 + 1 :=
  C8_first_success_passthrough (fun _ => .ok { status := 404, text := "Not Found" })
    { status := 404, text := "Not Found" } 0 "https://example.com" {}
    (by omega) rfl (by omega)

/-! ## Claims about the parser -/

/-- C1 (divergence of the code from the claim): for HTML containing
`<meta property='og:title' content='A'>` but no twitter:title meta, no
title element and no h1, `MetadataParser.parse` returns `title = url`,
not `'A'`: each later strategy's result object contains a `title` key
whose value is `undefined`, `Object.assign` copies it, and the Open
Graph title is wiped before the URL fallback runs.  The repository's
own parser tests expect the Open Graph title to survive. -/
theorem C1_og_only_title_falls_back_to_url :
    (MetadataParser.parse exampleUrl docOgOnly).title = some "https://example.com" ∧
    (MetadataParser.parse exampleUrl docOgOnly).title ≠ some "A" := by
  decide

/-- The favicon of a parsed record is exactly the standard strategy's
favicon: neither `cleanMetadata` nor the title fallback touches it. -/
lemma parse_favicon (u : UrlInfo) (doc : HtmlDoc) :
    (MetadataParser.parse u doc).favicon = StandardHTMLStrategy.getFavicon doc u := by
  simp only [MetadataParser.parse, MetadataParser.cleanMetadata, StandardHTMLStrategy.parse]
  split <;> split <;> (try split) <;> rfl

/-- C10: for every URL and document on which parsing succeeds, the
returned favicon is defined: it is the href of the first icon link
(prefixed with the URL's origin when the href starts with `/`), and
`{origin}/favicon.ico` when no icon link with a (non-empty) href
exists. -/
theorem C10_favicon_always_defined (u : UrlInfo) (doc : HtmlDoc) :
    ((MetadataParser.parse u doc).favicon).isSome = true ∧
    (∀ h, doc.faviconHref = some h → h ≠ "" →
      (MetadataParser.parse u doc).favicon =
        some (if strStartsWith h "/" then u.origin ++ h else h)) ∧
    ((doc.faviconHref = none ∨ doc.faviconHref = some "") →
      (MetadataParser.parse u doc).favicon = some (u.origin ++ "/favicon.ico")) := by
  refine ⟨?_, ?_, ?_⟩
  · rw [parse_favicon]
    unfold StandardHTMLStrategy.getFavicon
    cases hf : doc.faviconHref with
    | none => rfl
    | some h =>
      by_cases hh : h = ""
      · simp [hh]
      · simp only [ne_eq, hh, not_false_eq_true, if_true]
        split <;> simp
  · intro h hf hne
    rw [parse_favicon]
    unfold StandardHTMLStrategy.getFavicon
    rw [hf]
    simp only [ne_eq, hne, not_false_eq_true, if_true]
    by_cases hs : strStartsWith h "/" <;> simp [hs]
  · intro hf
    rw [parse_favicon]
    unfold StandardHTMLStrategy.getFavicon
    rcases hf with hf | hf <;> simp [hf]

/-- Witness for C10: a page with `<link rel='icon' href='/fav.png'>`
parsed against `https://example.com` gets favicon
`https://example.com/fav.png`. -/
theorem C10_favicon_always_defined_witness :
    (MetadataParser.parse exampleUrl docFav).favicon =
      some "https://example.com/fav.png" :=
  (C10_favicon_always_defined exampleUrl docFav).2.1 "/fav.png" rfl (by decide)

/-! ## Claims about the services -/

/-- C2 counterexample: with the image-save callback resolving
`local/path.png` and `preferLocalImages = false`,
`LinkMetadataService.getMetadata` (src/core/link-metadata/service.ts)
overwrites `image` with the local path anyway and leaves `localImage`
unset — contradicting the claim that `localImage` equals the saved path
and that `image` is overwritten only as dictated by the flag. -/
theorem C2_cex_src_service_has_no_localImage :
    LinkMetadataService.getMetadata (fun _ => .ok respOk) (fun _ => .ok mWithImage)
      (fun _ _ => .ok "local/path.png") (some { preferLocalImages := some false })
      { enableCache := some false } (MetadataCache.create {}) 0 "https://example.com" =
      .ok ({ mWithImage with image := some "local/path.png" }, MetadataCache.create {}) ∧
    ({ mWithImage with image := some "local/path.png" }).localImage = none := by
  constructor
  · rfl
  · rfl

/-- C2 (amended): when the parsed metadata has an image and the saver
resolves with a path `p`, `LinkMetadataService.getMetadata`
unconditionally overwrites `image` with `p` and never sets
`localImage`; the claimed behaviour — `localImage = p` and `image`
overwritten exactly when `preferLocalImages` is truthy — is implemented
only by the `MetadataService` variant. -/
theorem C2_localImage_only_in_variant
    (transport : Nat → Attempt) (parseFn : String → Except ParseFailure LinkMetadata)
    (save : ImageSaver) (settings : Option ObsidianAutoCardLinkSettings)
    (opts : MetadataServiceOptions) (cache : MetadataCache) (now : Nat) (url : String)
    (resp : RequestUrlResponse) (m : LinkMetadata) (s p : String)
    (hmiss : (if opts.enableCache.getD true then cache.get now url else (none, cache)).1 = none)
    (hfetch : (MetadataFetcher.fetchContent transport url (opts.fetchOptions.getD {})).result
      = .ok resp)
    (hparse : parseFn resp.text = .ok m)
    (himg : m.image = some s) (hs : s ≠ "")
    (hsave : ∀ fn, save s fn = .ok p) (hp : p ≠ "") :
    (LinkMetadataService.getMetadata transport parseFn save settings opts cache now url).map
        Prod.fst = .ok { m with image := some p } ∧
    (MetadataService.getMetadata transport parseFn (some save) settings opts cache now url).map
        Prod.fst =
      .ok (if (settings.bind (fun st => st.preferLocalImages)).getD false
            then { m with localImage := some p, image := some p }
            else { m with localImage := some p }) := by
  constructor
  · simp only [LinkMetadataService.getMetadata]
    rw [hmiss]
    dsimp only
    rw [hfetch]
    dsimp only
    rw [hparse]
    dsimp only
    rw [himg]
    dsimp only
    rw [if_pos hs, hsave (toString now ++ ".png")]
    rfl
  · simp only [MetadataService.getMetadata]
    rw [hmiss]
    dsimp only
    rw [hfetch]
    dsimp only
    rw [hparse]
    dsimp only
    rw [himg]
    dsimp only
    rw [if_pos hs, hsave ("image_" ++ urlHash8 url ++ "_" ++ toString now ++ ".png")]
    dsimp only
    rw [if_pos hp]
    rfl

/-- Witness for C2 (amended): with the saver resolving
`local/path.png`, the src service rewrites `image` and leaves
`localImage` unset, while the variant sets `localImage` and — with
`preferLocalImages = true` — also `image`. -/
theorem C2_localImage_only_in_variant_witness :
    (LinkMetadataService.getMetadata (fun _ => .ok respOk) (fun _ => .ok mWithImage)
        (fun _ _ => .ok "local/path.png") (some { preferLocalImages := some true })
        { enableCache := some false } (MetadataCache.create {}) 0 "https://example.com").map
        Prod.fst = .ok { mWithImage with image := some "local/path.png" } ∧
    (MetadataService.getMetadata (fun _ => .ok respOk) (fun _ => .ok mWithImage)
        (some (fun _ _ => .ok "local/path.png")) (some { preferLocalImages := some true })
        { enableCache := some false } (MetadataCache.create {}) 0 "https://example.com").map
        Prod.fst =
      .ok { mWithImage with
            localImage := some "local/path.png"
            image := some "local/path.png" } :=
  C2_localImage_only_in_variant _ _ _ _ _ _ _ _ respOk mWithImage
    "https://example.com/img.png" "local/path.png" rfl rfl rfl rfl (by decide)
    (fun _ => rfl) (by decide)

/-- C4: on a cache miss, when fetch and parse succeed the service
resolves even when the image-save callback rejects — returning exactly
the parser's record, its `image` URL intact — while fetch errors
surface as `ServiceError.fetch` and parse errors as
`ServiceError.parse`, unmodified. -/
theorem C4_error_propagation
    (transport : Nat → Attempt) (parseFn : String → Except ParseFailure LinkMetadata)
    (save : ImageSaver) (settings : Option ObsidianAutoCardLinkSettings)
    (opts : MetadataServiceOptions) (cache : MetadataCache) (now : Nat) (url : String)
    (hmiss : (if opts.enableCache.getD true then cache.get now url else (none, cache)).1
      = none) :
    (∀ resp m e,
      (MetadataFetcher.fetchContent transport url (opts.fetchOptions.getD {})).result
        = .ok resp →
      parseFn resp.text = .ok m → (∀ s fn, save s fn = .error e) →
      (LinkMetadataService.getMetadata transport parseFn save settings opts cache now url).map
        Prod.fst = .ok m) ∧
    (∀ fe,
      (MetadataFetcher.fetchContent transport url (opts.fetchOptions.getD {})).result
        = .error fe →
      LinkMetadataService.getMetadata transport parseFn save settings opts cache now url
        = .error (.fetch fe)) ∧
    (∀ resp pe,
      (MetadataFetcher.fetchContent transport url (opts.fetchOptions.getD {})).result
        = .ok resp →
      parseFn resp.text = .error pe →
      LinkMetadataService.getMetadata transport parseFn save settings opts cache now url
        = .error (.parse pe)) := by
  refine ⟨?_, ?_, ?_⟩
  · intro resp m e hfetch hparse hsavefail
    simp only [LinkMetadataService.getMetadata]
    rw [hmiss]
    dsimp only
    rw [hfetch]
    dsimp only
    rw [hparse]
    dsimp only
    cases himg : m.image with
    | none => rfl
    | some img =>
      dsimp only
      by_cases himg0 : img = ""
      · subst himg0
        rfl
      · rw [if_pos himg0, hsavefail img (toString now ++ ".png")]
        rfl
  · intro fe hfetch
    simp only [LinkMetadataService.getMetadata]
    rw [hmiss]
    dsimp only
    rw [hfetch]
  · intro resp pe hfetch hparse
    simp only [LinkMetadataService.getMetadata]
    rw [hmiss]
    dsimp only
    rw [hfetch]
    dsimp only
    rw [hparse]

/-- Witness for C4: with an always-rejecting saver, the service still
resolves with the parser's record, its remote image URL intact. -/
theorem C4_error_propagation_witness :
    (LinkMetadataService.getMetadata (fun _ => .ok respOk) (fun _ => .ok mWithImage)
        (fun _ _ => .error "disk full") none { enableCache := some false }
        (MetadataCache.create {}) 0 "https://example.com").map Prod.fst = .ok mWithImage :=
  (C4_error_propagation (fun _ => .ok respOk) (fun _ => .ok mWithImage)
    (fun _ _ => .error "disk full") none { enableCache := some false }
    (MetadataCache.create {}) 0 "https://example.com" rfl).1 respOk mWithImage
    "disk full" rfl rfl (fun _ _ => rfl)

/-- C9: whenever the parser yields a record without an image, the two
`getMetadata` implementations are observationally equivalent: same
returned value (or error) and same final cache state, for every
transport, cache state, settings and options. -/
theorem C9_service_equivalence
    (transport : Nat → Attempt) (parseFn : String → Except ParseFailure LinkMetadata)
    (save : ImageSaver) (settings : Option ObsidianAutoCardLinkSettings)
    (opts : MetadataServiceOptions) (cache : MetadataCache) (now : Nat) (url : String)
    (h : ∀ txt m, parseFn txt = .ok m → m.image = none) :
    LinkMetadataService.getMetadata transport parseFn save settings opts cache now url =
      MetadataService.getMetadata transport parseFn (some save) settings opts cache now url := by
  simp only [LinkMetadataService.getMetadata, MetadataService.getMetadata]
  cases ho : (if opts.enableCache.getD true then cache.get now url else (none, cache)).1 with
  | some m => rfl
  | none =>
    dsimp only
    cases hres : (MetadataFetcher.fetchContent transport url (opts.fetchOptions.getD {})).result with
    | error e => rfl
    | ok resp =>
      dsimp only
      cases hpp : parseFn resp.text with
      | error pe => rfl
      | ok m =>
        dsimp only
        rw [h resp.text m hpp]

/-- Witness for C9: on a no-image page both services produce the same
result. -/
theorem C9_service_equivalence_witness :
    LinkMetadataService.getMetadata (fun _ => .ok respOk) (fun _ => .ok mNoImage)
        (fun _ _ => .ok "x") none {} (MetadataCache.create {}) 0 "https://example.com" =
      MetadataService.getMetadata (fun _ => .ok respOk) (fun _ => .ok mNoImage)
        (some (fun _ _ => .ok "x")) none {} (MetadataCache.create {}) 0
        "https://example.com" :=
  C9_service_equivalence (fun _ => .ok respOk) (fun _ => .ok mNoImage)
    (fun _ _ => .ok "x") none {} (MetadataCache.create {}) 0 "https://example.com"
    (fun _ m hm => by
      injection hm with h2
      rw [← h2]
      rfl)
